import Mathlib

/-!
# System76 galp5 embedded-controller board logic

A shallow embedding of `src/board/system76/galp5/board.c`: the analog board
detection (`board_detect`), the PL4 power-limit retry loop (`board_on_ac`) and
the per-tick dispatcher (`board_event`), followed by the properties proved
about them.

The firmware runs on an 8-bit controller.  Registers are natural numbers and
every store is reduced modulo 256; the memory-mapped hardware the firmware
talks to (ADC channel 7, the POST-code latch, the PECI bus, two GPIO inputs) is
part of the machine state, so that one C statement is one state update.  Loops
that wait on hardware take a fuel argument: `none` means the fuel ran out
before the loop ended, and a loop that yields `none` for every amount of fuel
does not end.
-/

namespace Galp5

/-! ## Build configuration and observable events -/

/-- Macros that `board.c` uses but that are defined by the board makefile and
the chip headers: the build switch `HAVE_DGPU` (tested by `#if`), the two PL4
wattages, and the two GPIO control-register modes. -/
structure Config where
  HAVE_DGPU : Nat
  POWER_LIMIT_AC : Nat
  POWER_LIMIT_DC : Nat
  GPIO_ALT : Nat
  GPIO_IN : Nat

/-- Modelled from the spec: the macro `BIT` of `common/macro.h`, which is not
part of the source tree; `BIT x` is the mask of the single bit `x`, which the
spec calls a flag bit of a register (data valid, enable, new data). -/
def BIT (x : Nat) : Nat := 1 <<< x

/-- Calls that leave `board.c`, and entries into its own routines, in the
order in which they happen. -/
inductive Event where
  /-- The call `peci_wr_pkg_config(index, param, value)`. -/
  | peci (index param value : Nat)
  /-- The line `ERROR("set_power_limit failed: ...", -res)`. -/
  | failed (code : Int)
  /-- The line `ERROR("set_power_limit unknown response: ...", res)`. -/
  | unknown (code : Int)
  /-- Entry into `board_on_ac(ac)`. -/
  | on_ac (ac : Bool)
  /-- Entry into `board_detect()`. -/
  | detect
  /-- The call `espi_event()`. -/
  | espi
  /-- The line `DEBUG("POST %02X%02X\n", p81h, p80h)`. -/
  | post (p81h p80h : Nat)
  deriving DecidableEq, Repr

/-- Firmware variables, the registers `board.c` declares or touches, and the
hardware behind them. -/
structure Machine where
  /-- The global `have_dgpu`. -/
  have_dgpu : Bool
  /-- The static local `last_power_limit_ac` of `board_event`. -/
  last_power_limit_ac : Bool
  ADCSTS : Nat
  ADCCFG : Nat
  /-- Channel 7 control: bit 7 is data valid (write one to clear), bit 4 is
  channel enable. -/
  VCH7CTL : Nat
  VCH7DATM : Nat
  VCH7DATL : Nat
  GPCRI7 : Nat
  /-- Bits 7..1 of the POST-code status register; bit 0 is derived from the
  pending queue. -/
  P80H81HS : Nat
  /-- Level of the pin `CPU_C10_GATE_N` as `gpio_get` reads it. -/
  CPU_C10_GATE_N : Bool
  /-- Level of the pin `ACIN_N` as `gpio_get` reads it. -/
  ACIN_N : Bool
  /-- Responses of the PECI bus: `peci_resp 0` answers the next transaction. -/
  peci_resp : Nat → Int
  /-- Polls left until the running conversion completes; `none` is a
  converter that never completes. -/
  adc_delay : Option Nat
  /-- High byte the converter will latch. -/
  adc_high : Nat
  /-- Low byte the converter will latch. -/
  adc_low : Nat
  /-- POST codes latched by the host and not yet acknowledged, oldest first,
  as pairs (port 80h, port 81h). -/
  post_codes : List (Nat × Nat)
  /-- Events so far, oldest first. -/
  log : List Event

/-- Append one event to the log. -/
def Machine.emit (m : Machine) (e : Event) : Machine :=
  { m with log := m.log ++ [e] }

/-! ## Hardware behind the registers -/

/-- Modelled from the spec: the hardware behind `VCH7CTL`, whose data-valid
flag follows a write-one-to-clear pattern.  On a store, bits 6..0 take the
written value, bit 7 (data valid) is cleared by writing one and kept by writing
zero. -/
def write_VCH7CTL (v : Nat) (m : Machine) : Machine :=
  { m with VCH7CTL := ((v % 256) &&& 0x7F) |||
      (if v &&& BIT 7 ≠ 0 then 0 else m.VCH7CTL &&& BIT 7) }

/-- Modelled from the spec: the converter between two polls of the wait loop.
While the converter (`ADCCFG` bit 0) and channel 7 (`VCH7CTL` bit 4) are both
enabled the conversion advances; when it completes, the sample is latched and
data valid is raised.  A converter with `adc_delay = none` never completes. -/
def adc_step (m : Machine) : Machine :=
  if m.ADCCFG &&& BIT 0 ≠ 0 ∧ m.VCH7CTL &&& BIT 4 ≠ 0 then
    match m.adc_delay with
    | none => m
    | some 0 =>
      { m with VCH7CTL := m.VCH7CTL ||| BIT 7,
               VCH7DATM := m.adc_high % 256,
               VCH7DATL := m.adc_low % 256 }
    | some (n + 1) => { m with adc_delay := some n }
  else m

/-- Modelled from the spec: a load from the POST-code status register, whose
bit 0 (new data) is set while a code is pending. -/
def read_P80H81HS (m : Machine) : Nat :=
  (m.P80H81HS &&& 0xFE) ||| (if m.post_codes = [] then 0 else 1)

/-- Modelled from the spec: a store to the POST-code status register; writing
one to bit 0 acknowledges the oldest pending code. -/
def write_P80H81HS (v : Nat) (m : Machine) : Machine :=
  { m with P80H81HS := (v % 256) &&& 0xFE,
           post_codes := if v &&& 1 ≠ 0 then m.post_codes.tail else m.post_codes }

/-- Modelled from the spec: a load from the data register `P80HD`, the port 80h
byte of the oldest pending code. -/
def read_P80HD (m : Machine) : Nat :=
  match m.post_codes with
  | [] => 0
  | c :: _ => c.1 % 256

/-- Modelled from the spec: a load from the data register `P81HD`, the port 81h
byte of the oldest pending code. -/
def read_P81HD (m : Machine) : Nat :=
  match m.post_codes with
  | [] => 0
  | c :: _ => c.2 % 256

/-- Modelled from the spec: the bus transaction primitive `peci_wr_pkg_config`
of `board/peci.h`, which is not part of the source tree.  One call is one
transaction, answered by the next response of the bus; the responses are
arbitrary. -/
def peci_wr_pkg_config (index param value : Nat) (m : Machine) : Int × Machine :=
  (m.peci_resp 0,
   { m with peci_resp := fun n => m.peci_resp (n + 1),
            log := m.log ++ [Event.peci index param value] })

/-- Modelled from the spec: the eSPI event pump `espi_event` of `board/espi.h`,
which is not part of the source tree; only the call is recorded. -/
def espi_event (m : Machine) : Machine := m.emit Event.espi

/-! ## The routines of board.c -/

/-- The routine `adc_init`: set, then clear, bit 3 of `ADCSTS`. -/
def adc_init (m : Machine) : Machine :=
  let m := { m with ADCSTS := (m.ADCSTS ||| BIT 3) % 256 }
  { m with ADCSTS := (m.ADCSTS &&& (0xFFFF - BIT 3)) % 256 }

/-- The loop `while (!(VCH7CTL & BIT(7))) {}` of `board_detect`. -/
def wait_valid : Nat → Machine → Option Machine
  | 0, _ => none
  | fuel + 1, m =>
    if m.VCH7CTL &&& BIT 7 ≠ 0 then some m else wait_valid fuel (adc_step m)

/-- The `switch (high)` of `board_detect`: the value of `have_dgpu` after it,
given the high byte read and the value before. -/
def classify (high : Nat) (prior : Bool) : Bool :=
  if high = 0x00 then true
  else if high = 0x01 ∨ high = 0x02 then false
  else if high = 0x03 then true
  else prior

/-- The routine `board_detect`. -/
def board_detect (cfg : Config) (fuel : Nat) (m : Machine) : Option Machine := do
  let m := m.emit Event.detect
  -- Set GPI7 to alt mode
  let m := { m with GPCRI7 := cfg.GPIO_ALT % 256 }
  -- Clear channel 7 data valid
  let m := write_VCH7CTL (m.VCH7CTL ||| BIT 7) m
  -- Enable channel 7
  let m := write_VCH7CTL (m.VCH7CTL ||| BIT 4) m
  -- Enable ADC
  let m := { m with ADCCFG := (m.ADCCFG ||| BIT 0) % 256 }
  -- Wait for channel 7 data valid
  let m ← wait_valid fuel m
  -- Read channel 7 data (the low byte only feeds a debug line)
  let high := m.VCH7DATM
  let m := { m with have_dgpu := classify high m.have_dgpu }
  -- Disable ADC
  let m := { m with ADCCFG := (m.ADCCFG &&& (0xFFFF - BIT 0)) % 256 }
  -- Disable channel 7
  let m := write_VCH7CTL (m.VCH7CTL &&& (0xFFFF - BIT 4)) m
  -- Clear channel 7 data valid
  let m := write_VCH7CTL (m.VCH7CTL ||| BIT 7) m
  -- Set GPI7 to input
  some { m with GPCRI7 := cfg.GPIO_IN % 256 }

/-- The routine `set_power_limit`: `watts` is a `uint8_t`, the product is
formed in 32 bits. -/
def set_power_limit (watts : Nat) (m : Machine) : Int × Machine :=
  peci_wr_pkg_config 60 0 (((watts % 256) * 8) % 2 ^ 32) m

/-- The `for` loop of `board_on_ac` with `n` iterations left. -/
def retry : Nat → Nat → Machine → Machine
  | 0, _, m => m
  | n + 1, power_limit, m =>
    let r := set_power_limit power_limit m
    if r.1 = 0x40 then r.2
    else if r.1 < 0 then retry n power_limit (r.2.emit (Event.failed (-r.1)))
    else retry n power_limit (r.2.emit (Event.unknown r.1))

/-- The routine `board_on_ac`, in both variants selected by `#if HAVE_DGPU`. -/
def board_on_ac (cfg : Config) (fuel : Nat) (ac : Bool) (m : Machine) : Option Machine :=
  let m := m.emit (Event.on_ac ac)
  if cfg.HAVE_DGPU ≠ 0 then
    let power_limit := (if ac then cfg.POWER_LIMIT_AC else cfg.POWER_LIMIT_DC) % 256
    -- Retry, timeout errors happen occasionally
    let m := retry 16 power_limit m
    -- XXX just for testing
    board_detect cfg fuel m
  else some m

/-- The loop `while (P80H81HS & 1) { ... }` of `board_event`. -/
def read_post_codes : Nat → Machine → Option Machine
  | 0, _ => none
  | fuel + 1, m =>
    if read_P80H81HS m &&& 1 ≠ 0 then
      let p80h := read_P80HD m
      let p81h := read_P81HD m
      let m := write_P80H81HS (read_P80H81HS m ||| 1) m
      read_post_codes fuel (m.emit (Event.post p81h p80h))
    else some m

/-- The part of `board_event` under `#if HAVE_DGPU`. -/
def power_limit_check (cfg : Config) (fuel : Nat) (m : Machine) : Option Machine :=
  if cfg.HAVE_DGPU ≠ 0 then
    if m.CPU_C10_GATE_N then
      let ac := !m.ACIN_N
      if m.last_power_limit_ac ≠ ac then do
        let m ← board_on_ac cfg fuel ac m
        some { m with last_power_limit_ac := ac }
      else some m
    else some { m with last_power_limit_ac := true }
  else some m

/-- The routine `board_event`: one tick of the dispatcher. -/
def board_event (cfg : Config) (fuel : Nat) (m : Machine) : Option Machine := do
  let m ← power_limit_check cfg fuel m
  let m := espi_event m
  -- Read POST codes
  read_post_codes fuel m

/-! ## Ticks and what is observed of them -/

/-- What the surroundings present to one tick: pin levels, bus responses, the
conversion time and sample of the converter, and the POST codes the host has
latched. -/
structure Inputs where
  CPU_C10_GATE_N : Bool
  ACIN_N : Bool
  peci_resp : Nat → Int
  adc_delay : Option Nat
  adc_high : Nat
  adc_low : Nat
  post_codes : List (Nat × Nat)

/-- The machine at the start of a tick: firmware variables and registers are
kept, the surroundings are as given, the log starts empty. -/
def Machine.arm (m : Machine) (i : Inputs) : Machine :=
  { m with CPU_C10_GATE_N := i.CPU_C10_GATE_N, ACIN_N := i.ACIN_N,
           peci_resp := i.peci_resp, adc_delay := i.adc_delay,
           adc_high := i.adc_high, adc_low := i.adc_low,
           post_codes := i.post_codes, log := [] }

/-- One tick of the dispatcher on the given inputs. -/
def tick (cfg : Config) (fuel : Nat) (i : Inputs) (m : Machine) : Option Machine :=
  board_event cfg fuel (m.arm i)

/-- Whether an event is a PECI bus write. -/
def Event.isPeci : Event → Bool
  | Event.peci _ _ _ => true
  | _ => false

/-- Whether an event is an entry into `board_on_ac`. -/
def Event.isOnAc : Event → Bool
  | Event.on_ac _ => true
  | _ => false

/-- Number of PECI bus writes in a log. -/
def writes (l : List Event) : Nat := l.countP Event.isPeci

/-- Number of `board_on_ac` calls in a log. -/
def on_ac_calls (l : List Event) : Nat := l.countP Event.isOnAc

/-- The POST records in a log, in order, as pairs (port 80h, port 81h). -/
def posts : List Event → List (Nat × Nat)
  | [] => []
  | Event.post p81h p80h :: l => (p80h, p81h) :: posts l
  | _ :: l => posts l

/-- The number of writes the specification expects of one `board_on_ac` call:
the position of the first response equal to `0x40` when that is at most 16,
and 16 otherwise. -/
def expected_writes (resp : Nat → Int) : Nat :=
  match (List.range 16).find? (fun i => resp i = 0x40) with
  | some i => i + 1
  | none => 16

/-! ## Closed forms used in the proofs -/

/-- The machine once the running conversion has completed. -/
def converted (m : Machine) : Machine :=
  { m with adc_delay := some 0, VCH7CTL := m.VCH7CTL ||| BIT 7,
           VCH7DATM := m.adc_high % 256, VCH7DATL := m.adc_low % 256 }

/-- The machine on entry to the wait loop of `board_detect`. -/
def detect_armed (cfg : Config) (m : Machine) : Machine :=
  let m := m.emit Event.detect
  let m := { m with GPCRI7 := cfg.GPIO_ALT % 256 }
  let m := write_VCH7CTL (m.VCH7CTL ||| BIT 7) m
  let m := write_VCH7CTL (m.VCH7CTL ||| BIT 4) m
  { m with ADCCFG := (m.ADCCFG ||| BIT 0) % 256 }

/-- What `board_detect` does to the machine that leaves the wait loop. -/
def detect_done (cfg : Config) (m : Machine) : Machine :=
  let m := { m with have_dgpu := classify m.VCH7DATM m.have_dgpu }
  let m := { m with ADCCFG := (m.ADCCFG &&& (0xFFFF - BIT 0)) % 256 }
  let m := write_VCH7CTL (m.VCH7CTL &&& (0xFFFF - BIT 4)) m
  let m := write_VCH7CTL (m.VCH7CTL ||| BIT 7) m
  { m with GPCRI7 := cfg.GPIO_IN % 256 }

/-- Number of bus writes of the retry loop with `n` iterations left, given the
responses still to come. -/
def attempts : Nat → (Nat → Int) → Nat
  | 0, _ => 0
  | n + 1, r => if r 0 = 0x40 then 1 else attempts n (fun i => r (i + 1)) + 1

/-- Events of the retry loop with `n` iterations left. -/
def retry_log : Nat → Nat → (Nat → Int) → List Event
  | 0, _, _ => []
  | n + 1, pl, r =>
    Event.peci 60 0 (((pl % 256) * 8) % 2 ^ 32) ::
      (if r 0 = 0x40 then []
       else (if r 0 < 0 then Event.failed (-r 0) else Event.unknown (r 0)) ::
         retry_log n pl (fun i => r (i + 1)))

/-- The POST records a queue of pending codes gives rise to. -/
def post_events (codes : List (Nat × Nat)) : List Event :=
  codes.map (fun c => Event.post (c.2 % 256) (c.1 % 256))

/-- The machine `board_detect` returns, when it returns. -/
def detected (cfg : Config) (m : Machine) : Machine :=
  detect_done cfg (converted (detect_armed cfg m))

/-- The wattage `board_on_ac` stores in its `uint8_t power_limit`. -/
def power_limit (cfg : Config) (ac : Bool) : Nat :=
  (if ac then cfg.POWER_LIMIT_AC else cfg.POWER_LIMIT_DC) % 256

/-- The machine `board_on_ac` returns in a `HAVE_DGPU` build, when it returns. -/
def on_ac_done (cfg : Config) (ac : Bool) (m : Machine) : Machine :=
  detected cfg (retry 16 (power_limit cfg ac) (m.emit (Event.on_ac ac)))

/-- The machine the power-limit part of `board_event` returns, when it
returns. -/
def checked (cfg : Config) (m : Machine) : Machine :=
  if cfg.HAVE_DGPU ≠ 0 then
    if m.CPU_C10_GATE_N then
      if m.last_power_limit_ac ≠ !m.ACIN_N then
        { on_ac_done cfg (!m.ACIN_N) m with last_power_limit_ac := !m.ACIN_N }
      else m
    else { m with last_power_limit_ac := true }
  else m

/-- The tick reprograms the power limit: the build has the controller, the
gate is open and the source differs from the one last applied. -/
def transition (cfg : Config) (m : Machine) : Prop :=
  cfg.HAVE_DGPU ≠ 0 ∧ m.CPU_C10_GATE_N = true ∧ m.last_power_limit_ac ≠ !m.ACIN_N

instance (cfg : Config) (m : Machine) : Decidable (transition cfg m) := by
  unfold transition; infer_instance

/-! ## Concrete inputs -/

/-- The galp5 build: discrete GPU support on, 65 W on AC, 28 W on battery. -/
def galp5 : Config :=
  { HAVE_DGPU := 1, POWER_LIMIT_AC := 65, POWER_LIMIT_DC := 28,
    GPIO_ALT := 0x00, GPIO_IN := 0x80 }

/-- A machine with every register cleared, for concrete runs. -/
def reset (resp : Nat → Int) (delay : Option Nat) (high low : Nat)
    (codes : List (Nat × Nat)) : Machine :=
  { have_dgpu := false, last_power_limit_ac := true,
    ADCSTS := 0, ADCCFG := 0, VCH7CTL := 0, VCH7DATM := 0, VCH7DATL := 0,
    GPCRI7 := 0, P80H81HS := 0, CPU_C10_GATE_N := true, ACIN_N := false,
    peci_resp := resp, adc_delay := delay, adc_high := high, adc_low := low,
    post_codes := codes, log := [] }

/-- The machine after reset: registers cleared, `have_dgpu` false,
`last_power_limit_ac` true. -/
def fresh : Machine := reset (fun _ => 0x40) (some 3) 3 7 []

/-- Inputs of a tick on mains power: gate open, `ACIN_N` low, the bus answers
`0x40` at once, the conversion takes three polls and reads 0x0307. -/
def on_mains : Inputs :=
  { CPU_C10_GATE_N := true, ACIN_N := false, peci_resp := fun _ => 0x40,
    adc_delay := some 3, adc_high := 3, adc_low := 7, post_codes := [] }

/-- Inputs of a tick on battery: as `on_mains` with `ACIN_N` high. -/
def on_battery : Inputs := { on_mains with ACIN_N := true }

/-- Inputs of a tick on battery while the gate is closed. -/
def on_battery_closed : Inputs := { on_battery with CPU_C10_GATE_N := false }

/-- The machine after reset with a converter that never raises data valid, and
a bus that answers -1, -1, 0x40, then -1 for ever. -/
def stalled : Machine := reset (fun j => if j = 2 then 0x40 else -1) none 3 7 []

/-- Inputs of a tick on battery whose converter never raises data valid. -/
def on_battery_stalled : Inputs := { on_battery with adc_delay := none }

/-- Inputs of a tick on battery whose converter never raises data valid, with
three POST codes pending. -/
def on_battery_stalled_codes : Inputs :=
  { on_battery_stalled with post_codes := [(1, 2), (3, 4), (5, 6)] }

/-! ## Bit tests -/

theorem BIT_eq (k : Nat) : BIT k = 2 ^ k := by unfold BIT; rw [Nat.one_shiftLeft]

theorem testBit_BIT (k j : Nat) : (BIT k).testBit j = decide (k = j) := by
  rw [BIT_eq, Nat.testBit_two_pow]

theorem and_BIT_ne_zero (v k : Nat) : v &&& BIT k ≠ 0 ↔ v.testBit k = true := by
  rw [BIT_eq, Nat.and_two_pow]
  cases v.testBit k <;> simp

theorem testBit_byte (v k : Nat) : (v % 256).testBit k = (decide (k < 8) && v.testBit k) := by
  rw [show (256 : Nat) = 2 ^ 8 from rfl, Nat.testBit_mod_two_pow]

theorem testBit_127 (k : Nat) : Nat.testBit 0x7F k = decide (k < 7) := by
  rw [show (0x7F : Nat) = 2 ^ 7 - 1 from rfl, Nat.testBit_two_pow_sub_one]

theorem testBit_vch7 (v old k : Nat) :
    (((v % 256) &&& 0x7F) ||| (if v &&& BIT 7 ≠ 0 then 0 else old &&& BIT 7)).testBit k =
      ((decide (k < 7) && v.testBit k) || (decide (k = 7) && !v.testBit 7 && old.testBit 7)) := by
  rw [Nat.testBit_lor, Nat.testBit_land, testBit_byte, testBit_127]
  by_cases h : v.testBit 7 = true
  · rw [if_pos ((and_BIT_ne_zero v 7).2 h), Nat.zero_testBit, h]
    by_cases hk : k < 7
    · have : k < 8 := by omega
      simp [hk, this]
    · simp [hk]
  · rw [if_neg (fun c => h ((and_BIT_ne_zero v 7).1 c)), Nat.testBit_land, testBit_BIT]
    simp only [Bool.not_eq_true] at h
    rw [h]
    by_cases hk : k < 7
    · have h8 : k < 8 := by omega
      have h7 : ¬ (7 = k) := by omega
      have h7' : ¬ (k = 7) := by omega
      simp [hk, h8, h7, h7']
    · by_cases h7 : k = 7
      · subst h7; simp
      · have h7' : ¬ (7 = k) := by omega
        simp [hk, h7, h7']

/-! ## board_detect -/

theorem wait_valid_done (n : Nat) : ∀ (fuel : Nat) (m : Machine),
    m.adc_delay = some n → n + 2 ≤ fuel →
    m.ADCCFG.testBit 0 = true → m.VCH7CTL.testBit 4 = true →
    m.VCH7CTL.testBit 7 = false →
    wait_valid fuel m = some (converted m) := by
  induction n with
  | zero =>
    intro fuel m hd hf h0 h4 h7
    obtain ⟨f, rfl⟩ : ∃ f, fuel = f + 2 := ⟨fuel - 2, by omega⟩
    have e7 : ¬ (m.VCH7CTL &&& BIT 7 ≠ 0) := by
      rw [and_BIT_ne_zero]; simp [h7]
    have hs : adc_step m = converted m := by
      unfold adc_step converted
      rw [if_pos ⟨(and_BIT_ne_zero _ _).2 h0, (and_BIT_ne_zero _ _).2 h4⟩, hd]
    have e7c : (converted m).VCH7CTL &&& BIT 7 ≠ 0 := by
      rw [and_BIT_ne_zero]
      simp only [converted, Nat.testBit_lor, BIT, Bool.or_eq_true]
      exact Or.inr (by decide)
    rw [wait_valid, if_neg e7, hs, wait_valid, if_pos e7c]
  | succ n ih =>
    intro fuel m hd hf h0 h4 h7
    obtain ⟨f, rfl⟩ : ∃ f, fuel = f + 1 := ⟨fuel - 1, by omega⟩
    have e7 : ¬ (m.VCH7CTL &&& BIT 7 ≠ 0) := by
      rw [and_BIT_ne_zero]; simp [h7]
    have hs : adc_step m = { m with adc_delay := some n } := by
      unfold adc_step
      rw [if_pos ⟨(and_BIT_ne_zero _ _).2 h0, (and_BIT_ne_zero _ _).2 h4⟩, hd]
    have h := ih f { m with adc_delay := some n } rfl (by omega) h0 h4 h7
    rw [wait_valid, if_neg e7, hs, h]
    rfl

theorem wait_valid_never : ∀ (fuel : Nat) (m : Machine),
    m.adc_delay = none → m.VCH7CTL.testBit 7 = false →
    wait_valid fuel m = none := by
  intro fuel
  induction fuel with
  | zero => intro m _ _; rfl
  | succ f ih =>
    intro m hd h7
    have e7 : ¬ (m.VCH7CTL &&& BIT 7 ≠ 0) := by
      rw [and_BIT_ne_zero]; simp [h7]
    have hs : adc_step m = m := by
      unfold adc_step
      split
      · rw [hd]
      · rfl
    rw [wait_valid, if_neg e7, hs]
    exact ih m hd h7

theorem board_detect_eq (cfg : Config) (fuel : Nat) (m : Machine) :
    board_detect cfg fuel m =
      (wait_valid fuel (detect_armed cfg m)).bind (fun w => some (detect_done cfg w)) := rfl

theorem testBit_write_VCH7CTL (v : Nat) (m : Machine) (k : Nat) :
    (write_VCH7CTL v m).VCH7CTL.testBit k =
      ((decide (k < 7) && v.testBit k) ||
        (decide (k = 7) && !v.testBit 7 && m.VCH7CTL.testBit 7)) :=
  testBit_vch7 v m.VCH7CTL k

theorem detect_armed_bits (cfg : Config) (m : Machine) :
    (detect_armed cfg m).ADCCFG.testBit 0 = true ∧
    (detect_armed cfg m).VCH7CTL.testBit 4 = true ∧
    (detect_armed cfg m).VCH7CTL.testBit 7 = false := by
  refine ⟨?_, ?_, ?_⟩
  · simp only [detect_armed, testBit_byte, Nat.testBit_lor, testBit_BIT]
    simp
  · simp only [detect_armed, testBit_write_VCH7CTL, Nat.testBit_lor, testBit_BIT]
    simp
  · simp only [detect_armed, testBit_write_VCH7CTL, Nat.testBit_lor, testBit_BIT]
    simp

theorem board_detect_returns (cfg : Config) (fuel n : Nat) (m : Machine)
    (hd : m.adc_delay = some n) (hf : n + 2 ≤ fuel) :
    board_detect cfg fuel m = some (detect_done cfg (converted (detect_armed cfg m))) := by
  obtain ⟨h0, h4, h7⟩ := detect_armed_bits cfg m
  rw [board_detect_eq, wait_valid_done n fuel (detect_armed cfg m) hd hf h0 h4 h7]
  rfl

theorem board_detect_hangs (cfg : Config) (fuel : Nat) (m : Machine)
    (hd : m.adc_delay = none) : board_detect cfg fuel m = none := by
  obtain ⟨_, _, h7⟩ := detect_armed_bits cfg m
  rw [board_detect_eq, wait_valid_never fuel (detect_armed cfg m) hd h7]
  rfl

/-! ## The retry loop -/

theorem retry_eq (n pl : Nat) : ∀ m : Machine,
    retry n pl m =
      { m with peci_resp := fun i => m.peci_resp (i + attempts n m.peci_resp),
               log := m.log ++ retry_log n pl m.peci_resp } := by
  induction n with
  | zero => intro m; cases m; simp [retry, attempts, retry_log]
  | succ n ih =>
    intro m
    simp only [retry, set_power_limit, peci_wr_pkg_config, attempts, retry_log]
    by_cases h : m.peci_resp 0 = 0x40
    · simp [h]
    · simp only [h, if_false]
      by_cases hneg : m.peci_resp 0 < 0
      · simp only [hneg, if_true, ih, Machine.emit]
        simp [Nat.add_assoc]
      · simp only [hneg, if_false, ih, Machine.emit]
        simp [Nat.add_assoc]

theorem writes_append (a b : List Event) : writes (a ++ b) = writes a + writes b := by
  simp [writes, List.countP_append]

theorem writes_retry_log (n pl : Nat) : ∀ r : Nat → Int,
    writes (retry_log n pl r) = attempts n r := by
  induction n with
  | zero => intro r; rfl
  | succ n ih =>
    intro r
    by_cases h : r 0 = 0x40
    · simp [retry_log, attempts, h, writes, Event.isPeci]
    · have hev : (if r 0 < 0 then Event.failed (-r 0) else Event.unknown (r 0)).isPeci
          = false := by split <;> rfl
      have hi := ih (fun i => r (i + 1))
      unfold writes at hi
      simp only [retry_log, attempts, h, if_false, writes, List.countP_cons, hev, hi]
      simp [Event.isPeci]

theorem retry_log_payload (n pl : Nat) : ∀ (r : Nat → Int) (e : Event),
    e ∈ retry_log n pl r → e.isPeci = true →
    e = Event.peci 60 0 (((pl % 256) * 8) % 2 ^ 32) := by
  induction n with
  | zero => intro r e he; simp [retry_log] at he
  | succ n ih =>
    intro r e he hp
    simp only [retry_log, List.mem_cons] at he
    rcases he with he | he
    · exact he
    · by_cases h : r 0 = 0x40
      · simp [h] at he
      · simp only [h, if_false, List.mem_cons] at he
        rcases he with he | he
        · subst he
          by_cases hneg : r 0 < 0 <;> simp [hneg, Event.isPeci] at hp
        · exact ih _ e he hp

theorem attempts_le (n : Nat) : ∀ r : Nat → Int, attempts n r ≤ n := by
  induction n with
  | zero => intro r; simp [attempts]
  | succ n ih =>
    intro r
    have := ih (fun i => r (i + 1))
    simp only [attempts]
    split <;> omega

/-- If the first `0x40` comes at index `k` and `k < n`, the loop makes `k + 1`
writes. -/
theorem attempts_first (n : Nat) : ∀ (r : Nat → Int) (k : Nat), k < n →
    r k = 0x40 → (∀ i, i < k → r i ≠ 0x40) → attempts n r = k + 1 := by
  induction n with
  | zero => intro r k hk; omega
  | succ n ih =>
    intro r k hk hr hb
    cases k with
    | zero => simp [attempts, hr]
    | succ k =>
      have h0 : r 0 ≠ 0x40 := hb 0 (by omega)
      have := ih (fun i => r (i + 1)) k (by omega) hr (fun i hi => hb (i + 1) (by omega))
      simp [attempts, h0, this]

/-- If none of the next `n` responses is `0x40`, the loop makes `n` writes. -/
theorem attempts_none (n : Nat) : ∀ (r : Nat → Int),
    (∀ i, i < n → r i ≠ 0x40) → attempts n r = n := by
  induction n with
  | zero => intro r _; rfl
  | succ n ih =>
    intro r hb
    have h0 : r 0 ≠ 0x40 := hb 0 (by omega)
    have := ih (fun i => r (i + 1)) (fun i hi => hb (i + 1) (by omega))
    simp [attempts, h0, this]

theorem attempts_eq_find (n : Nat) : ∀ r : Nat → Int,
    attempts n r =
      (match (List.range n).find? (fun i => decide (r i = 0x40)) with
       | some i => i + 1
       | none => n) := by
  induction n with
  | zero => intro r; rfl
  | succ n ih =>
    intro r
    rw [List.range_succ_eq_map, List.find?_cons]
    by_cases h : r 0 = 0x40
    · simp [attempts, h]
    · have hi := ih (fun i => r (i + 1))
      simp only [attempts, h, if_false, decide_False, List.find?_map, hi]
      cases hf : List.find? (fun i => decide (r (i + 1) = 0x40)) (List.range n) with
      | none =>
        have : List.find? ((fun i => decide (r i = 0x40)) ∘ Nat.succ) (List.range n) = none := hf
        simp [this]
      | some i =>
        have : List.find? ((fun i => decide (r i = 0x40)) ∘ Nat.succ) (List.range n) = some i := hf
        simp [this]

theorem attempts_eq_expected (r : Nat → Int) : attempts 16 r = expected_writes r :=
  attempts_eq_find 16 r

/-! ## The POST-code loop -/

theorem and_one_ne_zero (v : Nat) : v &&& 1 ≠ 0 ↔ v.testBit 0 = true :=
  and_BIT_ne_zero v 0

theorem read_P80H81HS_pending (m : Machine) :
    read_P80H81HS m &&& 1 ≠ 0 ↔ m.post_codes ≠ [] := by
  have c : Nat.testBit 0xFE 0 = false := by decide
  rw [and_one_ne_zero, read_P80H81HS, Nat.testBit_lor, Nat.testBit_land, c]
  by_cases h : m.post_codes = [] <;> simp [h]

theorem ack_bit (v : Nat) : (v ||| 1) &&& 1 ≠ 0 := by
  rw [and_one_ne_zero, Nat.testBit_lor]
  simp

theorem read_post_codes_done (codes : List (Nat × Nat)) : ∀ (fuel : Nat) (m : Machine),
    m.post_codes = codes → codes.length < fuel →
    ∃ m', read_post_codes fuel m = some m' ∧ m'.post_codes = [] ∧
      m'.log = m.log ++ post_events codes ∧
      m'.have_dgpu = m.have_dgpu ∧
      m'.last_power_limit_ac = m.last_power_limit_ac := by
  induction codes with
  | nil =>
    intro fuel m hc hf
    obtain ⟨f, rfl⟩ : ∃ f, fuel = f + 1 := ⟨fuel - 1, by omega⟩
    have hn : ¬ (read_P80H81HS m &&& 1 ≠ 0) := by
      rw [read_P80H81HS_pending]; simp [hc]
    exact ⟨m, by rw [read_post_codes, if_neg hn], hc, by simp [post_events], rfl, rfl⟩
  | cons c cs ih =>
    intro fuel m hc hf
    obtain ⟨f, rfl⟩ : ∃ f, fuel = f + 1 := ⟨fuel - 1, by omega⟩
    have hp : read_P80H81HS m &&& 1 ≠ 0 := by
      rw [read_P80H81HS_pending]; simp [hc]
    have h80 : read_P80HD m = c.1 % 256 := by simp [read_P80HD, hc]
    have h81 : read_P81HD m = c.2 % 256 := by simp [read_P81HD, hc]
    obtain ⟨m', hr, hq, hl, hd, hla⟩ :=
      ih f ((write_P80H81HS (read_P80H81HS m ||| 1) m).emit
        (Event.post (read_P81HD m) (read_P80HD m)))
        (by simp [Machine.emit, write_P80H81HS, ack_bit, hc])
        (by simp at hf; omega)
    refine ⟨m', ?_, hq, ?_, ?_, ?_⟩
    · rw [read_post_codes, if_pos hp]; exact hr
    · rw [hl]; simp [Machine.emit, write_P80H81HS, post_events, h80, h81]
    · rw [hd]; rfl
    · rw [hla]; rfl

theorem wait_valid_result : ∀ (fuel : Nat) (m w : Machine),
    m.ADCCFG.testBit 0 = true → m.VCH7CTL.testBit 4 = true →
    m.VCH7CTL.testBit 7 = false →
    wait_valid fuel m = some w → w = converted m := by
  intro fuel
  induction fuel with
  | zero => intro m w _ _ _ h; simp [wait_valid] at h
  | succ f ih =>
    intro m w h0 h4 h7 h
    have e7 : ¬ (m.VCH7CTL &&& BIT 7 ≠ 0) := by
      rw [and_BIT_ne_zero]; simp [h7]
    rw [wait_valid, if_neg e7] at h
    have hen : m.ADCCFG &&& BIT 0 ≠ 0 ∧ m.VCH7CTL &&& BIT 4 ≠ 0 :=
      ⟨(and_BIT_ne_zero _ _).2 h0, (and_BIT_ne_zero _ _).2 h4⟩
    cases hd : m.adc_delay with
    | none =>
      have hs : adc_step m = m := by
        unfold adc_step; rw [if_pos hen, hd]
      rw [hs] at h
      exact ih m w h0 h4 h7 h
    | some n =>
      cases n with
      | zero =>
        have hs : adc_step m = converted m := by
          unfold adc_step converted; rw [if_pos hen, hd]
        have e7c : (converted m).VCH7CTL &&& BIT 7 ≠ 0 := by
          rw [and_BIT_ne_zero]
          simp only [converted, Nat.testBit_lor, testBit_BIT]
          simp
        rw [hs] at h
        cases f with
        | zero => simp [wait_valid] at h
        | succ f =>
          rw [wait_valid, if_pos e7c] at h
          exact (Option.some.inj h).symm
      | succ n =>
        have hs : adc_step m = { m with adc_delay := some n } := by
          unfold adc_step; rw [if_pos hen, hd]
        rw [hs] at h
        exact ih { m with adc_delay := some n } w h0 h4 h7 h

theorem board_detect_some (cfg : Config) (fuel : Nat) (m w : Machine)
    (h : board_detect cfg fuel m = some w) : w = detected cfg m := by
  obtain ⟨h0, h4, h7⟩ := detect_armed_bits cfg m
  rw [board_detect_eq] at h
  cases hw : wait_valid fuel (detect_armed cfg m) with
  | none => rw [hw] at h; simp at h
  | some x =>
    rw [hw] at h
    have hx := wait_valid_result fuel _ x h0 h4 h7 hw
    subst hx
    exact (Option.some.inj h).symm

theorem detected_have_dgpu (cfg : Config) (m : Machine) :
    (detected cfg m).have_dgpu = classify (m.adc_high % 256) m.have_dgpu := rfl

theorem detected_log (cfg : Config) (m : Machine) :
    (detected cfg m).log = m.log ++ [Event.detect] := rfl

theorem detected_last (cfg : Config) (m : Machine) :
    (detected cfg m).last_power_limit_ac = m.last_power_limit_ac := rfl

theorem detected_post_codes (cfg : Config) (m : Machine) :
    (detected cfg m).post_codes = m.post_codes := rfl

theorem read_post_codes_some : ∀ (fuel : Nat) (m w : Machine),
    read_post_codes fuel m = some w →
    w.post_codes = [] ∧ w.log = m.log ++ post_events m.post_codes ∧
      w.have_dgpu = m.have_dgpu ∧ w.last_power_limit_ac = m.last_power_limit_ac := by
  intro fuel
  induction fuel with
  | zero => intro m w h; simp [read_post_codes] at h
  | succ f ih =>
    intro m w h
    rw [read_post_codes] at h
    by_cases hp : read_P80H81HS m &&& 1 ≠ 0
    · rw [if_pos hp] at h
      obtain ⟨hq, hl, hd, hla⟩ := ih _ w h
      have hne := (read_P80H81HS_pending m).1 hp
      obtain ⟨c, cs, hc⟩ := List.exists_cons_of_ne_nil hne
      refine ⟨hq, ?_, ?_, ?_⟩
      · rw [hl]
        simp [Machine.emit, write_P80H81HS, post_events, read_P80HD, read_P81HD, hc, ack_bit]
      · rw [hd]; rfl
      · rw [hla]; rfl
    · rw [if_neg hp] at h
      have hw := (Option.some.inj h).symm
      subst hw
      have hnil : w.post_codes = [] := by
        by_contra hne
        exact hp ((read_P80H81HS_pending w).2 hne)
      exact ⟨hnil, by simp [hnil, post_events], rfl, rfl⟩

/-! ## board_on_ac and board_event -/

theorem board_on_ac_eq (cfg : Config) (fuel : Nat) (ac : Bool) (m : Machine)
    (hcfg : cfg.HAVE_DGPU ≠ 0) :
    board_on_ac cfg fuel ac m =
      board_detect cfg fuel (retry 16 (power_limit cfg ac) (m.emit (Event.on_ac ac))) := by
  simp only [board_on_ac, power_limit, if_pos hcfg]

theorem board_on_ac_some (cfg : Config) (fuel : Nat) (ac : Bool) (m w : Machine)
    (hcfg : cfg.HAVE_DGPU ≠ 0) (h : board_on_ac cfg fuel ac m = some w) :
    w = on_ac_done cfg ac m := by
  rw [board_on_ac_eq cfg fuel ac m hcfg] at h
  exact board_detect_some cfg fuel _ w h

theorem board_on_ac_returns (cfg : Config) (fuel n : Nat) (ac : Bool) (m : Machine)
    (hcfg : cfg.HAVE_DGPU ≠ 0) (hd : m.adc_delay = some n) (hf : n + 2 ≤ fuel) :
    board_on_ac cfg fuel ac m = some (on_ac_done cfg ac m) := by
  rw [board_on_ac_eq cfg fuel ac m hcfg]
  exact board_detect_returns cfg fuel n _ (by rw [retry_eq]; exact hd) hf

theorem on_ac_done_log (cfg : Config) (ac : Bool) (m : Machine) :
    (on_ac_done cfg ac m).log =
      m.log ++ Event.on_ac ac ::
        (retry_log 16 (power_limit cfg ac) m.peci_resp ++ [Event.detect]) := by
  rw [on_ac_done, detected_log, retry_eq]
  simp [Machine.emit]

theorem on_ac_done_have_dgpu (cfg : Config) (ac : Bool) (m : Machine) :
    (on_ac_done cfg ac m).have_dgpu = classify (m.adc_high % 256) m.have_dgpu := by
  rw [on_ac_done, detected_have_dgpu, retry_eq]
  rfl

theorem on_ac_done_post_codes (cfg : Config) (ac : Bool) (m : Machine) :
    (on_ac_done cfg ac m).post_codes = m.post_codes := by
  rw [on_ac_done, detected_post_codes, retry_eq]
  rfl

theorem power_limit_check_some (cfg : Config) (fuel : Nat) (m w : Machine)
    (h : power_limit_check cfg fuel m = some w) : w = checked cfg m := by
  unfold power_limit_check at h
  unfold checked
  by_cases hcfg : cfg.HAVE_DGPU ≠ 0
  · rw [if_pos hcfg] at h ⊢
    by_cases hg : m.CPU_C10_GATE_N = true
    · rw [if_pos hg] at h ⊢
      by_cases hl : m.last_power_limit_ac ≠ !m.ACIN_N
      · simp only [if_pos hl] at h ⊢
        cases hb : board_on_ac cfg fuel (!m.ACIN_N) m with
        | none => rw [hb] at h; simp at h
        | some x =>
          rw [hb] at h
          have hx := board_on_ac_some cfg fuel _ m x hcfg hb
          subst hx
          exact (Option.some.inj h).symm
      · simp only [if_neg hl] at h ⊢
        exact (Option.some.inj h).symm
    · rw [if_neg hg] at h ⊢
      exact (Option.some.inj h).symm
  · rw [if_neg hcfg] at h ⊢
    exact (Option.some.inj h).symm

theorem power_limit_check_quiet (cfg : Config) (fuel : Nat) (m : Machine)
    (hq : ¬ transition cfg m) : power_limit_check cfg fuel m = some (checked cfg m) := by
  unfold power_limit_check checked
  by_cases hcfg : cfg.HAVE_DGPU ≠ 0
  · rw [if_pos hcfg, if_pos hcfg]
    by_cases hg : m.CPU_C10_GATE_N = true
    · have hl : ¬ (m.last_power_limit_ac ≠ !m.ACIN_N) := fun c => hq ⟨hcfg, hg, c⟩
      rw [if_pos hg, if_pos hg]
      simp only [if_neg hl]
    · rw [if_neg hg, if_neg hg]
  · rw [if_neg hcfg, if_neg hcfg]

theorem power_limit_check_returns (cfg : Config) (fuel n : Nat) (m : Machine)
    (hd : m.adc_delay = some n) (hf : n + 2 ≤ fuel) :
    power_limit_check cfg fuel m = some (checked cfg m) := by
  by_cases ht : transition cfg m
  · obtain ⟨hcfg, hg, hl⟩ := ht
    unfold power_limit_check checked
    rw [if_pos hcfg, if_pos hcfg, if_pos hg, if_pos hg]
    simp only [if_pos hl]
    rw [board_on_ac_returns cfg fuel n _ m hcfg hd hf]
    rfl
  · exact power_limit_check_quiet cfg fuel m ht

theorem checked_post_codes (cfg : Config) (m : Machine) :
    (checked cfg m).post_codes = m.post_codes := by
  unfold checked
  split
  · split
    · split
      · exact on_ac_done_post_codes cfg _ m
      · rfl
    · rfl
  · rfl

theorem checked_last (cfg : Config) (m : Machine) (hcfg : cfg.HAVE_DGPU ≠ 0) :
    (checked cfg m).last_power_limit_ac = (if m.CPU_C10_GATE_N then !m.ACIN_N else true) := by
  unfold checked
  rw [if_pos hcfg]
  by_cases hg : m.CPU_C10_GATE_N = true
  · rw [if_pos hg, if_pos hg]
    by_cases hl : m.last_power_limit_ac ≠ !m.ACIN_N
    · simp only [if_pos hl]
    · simp only [if_neg hl]
      exact not_not.1 hl
  · rw [if_neg hg, if_neg hg]

theorem checked_quiet (cfg : Config) (m : Machine) (hq : ¬ transition cfg m) :
    (checked cfg m).log = m.log ∧ (checked cfg m).have_dgpu = m.have_dgpu := by
  unfold checked
  by_cases hcfg : cfg.HAVE_DGPU ≠ 0
  · rw [if_pos hcfg]
    by_cases hg : m.CPU_C10_GATE_N = true
    · have hl : ¬ (m.last_power_limit_ac ≠ !m.ACIN_N) := fun c => hq ⟨hcfg, hg, c⟩
      rw [if_pos hg]
      simp only [if_neg hl, and_self]
    · rw [if_neg hg]
      exact ⟨rfl, rfl⟩
  · rw [if_neg hcfg]
    exact ⟨rfl, rfl⟩

theorem checked_transition (cfg : Config) (m : Machine) (ht : transition cfg m) :
    (checked cfg m).log =
      m.log ++ Event.on_ac (!m.ACIN_N) ::
        (retry_log 16 (power_limit cfg (!m.ACIN_N)) m.peci_resp ++ [Event.detect]) ∧
    (checked cfg m).have_dgpu = classify (m.adc_high % 256) m.have_dgpu := by
  obtain ⟨hcfg, hg, hl⟩ := ht
  unfold checked
  rw [if_pos hcfg, if_pos hg]
  simp only [if_pos hl]
  exact ⟨on_ac_done_log cfg _ m, on_ac_done_have_dgpu cfg _ m⟩

theorem tick_some (cfg : Config) (fuel : Nat) (i : Inputs) (m w : Machine)
    (h : tick cfg fuel i m = some w) :
    w.log = (checked cfg (m.arm i)).log ++ Event.espi :: post_events i.post_codes ∧
    w.post_codes = [] ∧
    w.have_dgpu = (checked cfg (m.arm i)).have_dgpu ∧
    w.last_power_limit_ac = (checked cfg (m.arm i)).last_power_limit_ac := by
  unfold tick board_event at h
  cases hp : power_limit_check cfg fuel (m.arm i) with
  | none => rw [hp] at h; simp at h
  | some x =>
    rw [hp] at h
    have hx := power_limit_check_some cfg fuel _ x hp
    subst hx
    obtain ⟨hq, hl, hd, hla⟩ := read_post_codes_some fuel _ w h
    refine ⟨?_, hq, hd, hla⟩
    rw [hl]
    simp [espi_event, Machine.emit, checked_post_codes, Machine.arm]

theorem tick_returns (cfg : Config) (fuel : Nat) (i : Inputs) (m : Machine)
    (hq : i.post_codes.length < fuel)
    (hr : (¬ transition cfg (m.arm i)) ∨ ∃ n, i.adc_delay = some n ∧ n + 2 ≤ fuel) :
    ∃ w, tick cfg fuel i m = some w := by
  have hp : power_limit_check cfg fuel (m.arm i) = some (checked cfg (m.arm i)) := by
    rcases hr with hr | ⟨n, hd, hf⟩
    · exact power_limit_check_quiet cfg fuel _ hr
    · exact power_limit_check_returns cfg fuel n _ hd hf
  obtain ⟨w, hw, _⟩ := read_post_codes_done i.post_codes fuel
    (espi_event (checked cfg (m.arm i)))
    (by simp [espi_event, Machine.emit, checked_post_codes, Machine.arm]) hq
  refine ⟨w, ?_⟩
  unfold tick board_event
  rw [hp]
  exact hw

/-! ## Counting events -/

theorem on_ac_calls_append (a b : List Event) :
    on_ac_calls (a ++ b) = on_ac_calls a + on_ac_calls b := by
  simp [on_ac_calls, List.countP_append]

theorem posts_append (a b : List Event) : posts (a ++ b) = posts a ++ posts b := by
  induction a with
  | nil => rfl
  | cons e a ih => cases e <;> simp [posts, ih]

theorem writes_post_events (c : List (Nat × Nat)) : writes (post_events c) = 0 := by
  induction c with
  | nil => rfl
  | cons x c ih =>
    unfold writes post_events at *
    simp only [List.map_cons, List.countP_cons, ih]
    rfl

theorem on_ac_calls_post_events (c : List (Nat × Nat)) : on_ac_calls (post_events c) = 0 := by
  induction c with
  | nil => rfl
  | cons x c ih =>
    unfold on_ac_calls post_events at *
    simp only [List.map_cons, List.countP_cons, ih]
    rfl

theorem posts_post_events (c : List (Nat × Nat)) :
    posts (post_events c) = c.map (fun p => (p.1 % 256, p.2 % 256)) := by
  induction c with
  | nil => rfl
  | cons x c ih =>
    unfold post_events at *
    simp only [List.map_cons, posts, ih]

theorem on_ac_calls_retry_log (n pl : Nat) : ∀ r : Nat → Int,
    on_ac_calls (retry_log n pl r) = 0 := by
  induction n with
  | zero => intro r; rfl
  | succ n ih =>
    intro r
    have hev : (if r 0 < 0 then Event.failed (-r 0) else Event.unknown (r 0)).isOnAc
        = false := by split <;> rfl
    have hi := ih (fun i => r (i + 1))
    unfold on_ac_calls at hi ⊢
    by_cases h : r 0 = 0x40
    · simp [retry_log, h, Event.isOnAc]
    · simp only [retry_log, h, if_false, List.countP_cons, hev, hi]
      simp [Event.isOnAc]

theorem posts_retry_log (n pl : Nat) : ∀ r : Nat → Int, posts (retry_log n pl r) = [] := by
  induction n with
  | zero => intro r; rfl
  | succ n ih =>
    intro r
    have hi := ih (fun i => r (i + 1))
    by_cases h : r 0 = 0x40
    · simp [retry_log, h, posts]
    · by_cases hneg : r 0 < 0 <;> simp [retry_log, h, hneg, posts, hi]

/-! ## Properties of the board logic -/

theorem expected_writes_cases (r : Nat → Int) :
    (∃ k, k < 16 ∧ r k = 0x40 ∧ (∀ j, j < k → r j ≠ 0x40) ∧ expected_writes r = k + 1) ∨
    ((∀ j, j < 16 → r j ≠ 0x40) ∧ expected_writes r = 16) := by
  by_cases h : ∃ k, k < 16 ∧ r k = 0x40
  · left
    classical
    refine ⟨Nat.find h, (Nat.find_spec h).1, (Nat.find_spec h).2, ?_, ?_⟩
    · intro j hj hr
      exact Nat.find_min h hj ⟨by have := (Nat.find_spec h).1; omega, hr⟩
    · rw [← attempts_eq_expected]
      refine attempts_first 16 r _ (Nat.find_spec h).1 (Nat.find_spec h).2 ?_
      intro j hj hr
      exact Nat.find_min h hj ⟨by have := (Nat.find_spec h).1; omega, hr⟩
  · right
    have hn : ∀ j, j < 16 → r j ≠ 0x40 := fun j hj hr => h ⟨j, hj, hr⟩
    exact ⟨hn, by rw [← attempts_eq_expected]; exact attempts_none 16 r hn⟩

/-- What `board_on_ac` does when the converter completes: in a build with the
power-limit controller the call returns, and the number of PECI writes it made
is at most 16: it is the position of the first response `0x40` when that
position is at most 16 and is 16 otherwise; all-negative responses give 16
writes, and two negative responses followed by `0x40` give 3. -/
theorem board_on_ac_write_count (cfg : Config) (fuel n : Nat) (ac : Bool) (m : Machine)
    (hcfg : cfg.HAVE_DGPU ≠ 0) (hd : m.adc_delay = some n) (hf : n + 2 ≤ fuel) :
    ∃ w, board_on_ac cfg fuel ac m = some w ∧
      writes w.log = writes m.log + expected_writes m.peci_resp ∧
      writes w.log ≤ writes m.log + 16 ∧
      (∀ k, k < 16 → m.peci_resp k = 0x40 → (∀ j, j < k → m.peci_resp j ≠ 0x40) →
        writes w.log = writes m.log + (k + 1)) ∧
      ((∀ j, j < 16 → m.peci_resp j ≠ 0x40) → writes w.log = writes m.log + 16) ∧
      ((∀ j, m.peci_resp j < 0) → writes w.log = writes m.log + 16) ∧
      (m.peci_resp 0 < 0 → m.peci_resp 1 < 0 → m.peci_resp 2 = 0x40 →
        writes w.log = writes m.log + 3) := by
  have hw : writes (on_ac_done cfg ac m).log = writes m.log + attempts 16 m.peci_resp := by
    rw [on_ac_done_log, writes_append]
    show _ + writes ([Event.on_ac ac] ++ (retry_log 16 _ m.peci_resp ++ [Event.detect])) = _
    rw [writes_append, writes_append, writes_retry_log]
    simp [writes, Event.isPeci]
  have hfirst : ∀ k, k < 16 → m.peci_resp k = 0x40 → (∀ j, j < k → m.peci_resp j ≠ 0x40) →
      writes (on_ac_done cfg ac m).log = writes m.log + (k + 1) := by
    intro k hk hr hb
    rw [hw, attempts_first 16 m.peci_resp k hk hr hb]
  have hnone : (∀ j, j < 16 → m.peci_resp j ≠ 0x40) →
      writes (on_ac_done cfg ac m).log = writes m.log + 16 := by
    intro hb
    rw [hw, attempts_none 16 m.peci_resp hb]
  refine ⟨on_ac_done cfg ac m, board_on_ac_returns cfg fuel n ac m hcfg hd hf, ?_, ?_, hfirst,
    hnone, ?_, ?_⟩
  · rw [hw, attempts_eq_expected]
  · rw [hw]
    have := attempts_le 16 m.peci_resp
    omega
  · intro hneg
    refine hnone (fun j _ hr => ?_)
    have := hneg j
    omega
  · intro h0 h1 h2
    refine hfirst 2 (by omega) h2 (fun j hj hr => ?_)
    have hj' : j = 0 ∨ j = 1 := by omega
    rcases hj' with rfl | rfl <;> omega

/-- The write count at a concrete machine: responses -1, -1, 0x40, then -1 for
ever, and a conversion of three polls. -/
theorem board_on_ac_write_count_witness :
    ∃ w, board_on_ac galp5 8 false
        (reset (fun j => if j = 2 then 0x40 else -1) (some 3) 3 7 []) = some w ∧
      writes w.log = writes (reset (fun j => if j = 2 then 0x40 else -1) (some 3) 3 7 []).log
        + expected_writes (reset (fun j => if j = 2 then 0x40 else -1) (some 3) 3 7 []).peci_resp ∧
      writes w.log = 3 := by
  obtain ⟨w, hw, he, _, _, _, _, h3⟩ := board_on_ac_write_count galp5 8 3 false
    (reset (fun j => if j = 2 then 0x40 else -1) (some 3) 3 7 [])
    (by decide) rfl (by decide)
  exact ⟨w, hw, he, h3 (by decide) (by decide) (by decide)⟩

theorem payload_eq (x : Nat) : ((x % 256 % 256) * 8) % 2 ^ 32 = x % 256 * 8 := by
  have h : x % 256 < 256 := Nat.mod_lt _ (by decide)
  rw [Nat.mod_mod, Nat.mod_eq_of_lt]
  have : (2 : Nat) ^ 32 = 4294967296 := by norm_num
  omega

/-- Events of a tick that reprograms the power limit, up to the eSPI call. -/
theorem tick_log_transition (cfg : Config) (fuel : Nat) (i : Inputs) (m w : Machine)
    (h : tick cfg fuel i m = some w) (ht : transition cfg (m.arm i)) :
    w.log = Event.on_ac (!i.ACIN_N) ::
      (retry_log 16 (power_limit cfg (!i.ACIN_N)) i.peci_resp ++
        Event.detect :: Event.espi :: post_events i.post_codes) := by
  obtain ⟨hl, _, _, _⟩ := tick_some cfg fuel i m w h
  rw [hl, (checked_transition cfg _ ht).1]
  simp [Machine.arm]

/-- Events of a tick that does not reprogram the power limit. -/
theorem tick_log_quiet (cfg : Config) (fuel : Nat) (i : Inputs) (m w : Machine)
    (h : tick cfg fuel i m = some w) (hq : ¬ transition cfg (m.arm i)) :
    w.log = Event.espi :: post_events i.post_codes := by
  obtain ⟨hl, _, _, _⟩ := tick_some cfg fuel i m w h
  rw [hl, (checked_quiet cfg _ hq).1]
  simp [Machine.arm]

theorem counts_transition (pl : Nat) (ac : Bool) (r : Nat → Int) (c : List (Nat × Nat)) :
    on_ac_calls (Event.on_ac ac ::
      (retry_log 16 pl r ++ Event.detect :: Event.espi :: post_events c)) = 1 ∧
    writes (Event.on_ac ac ::
      (retry_log 16 pl r ++ Event.detect :: Event.espi :: post_events c)) = expected_writes r ∧
    posts (Event.on_ac ac ::
      (retry_log 16 pl r ++ Event.detect :: Event.espi :: post_events c)) =
        c.map (fun p => (p.1 % 256, p.2 % 256)) := by
  have e : Event.on_ac ac ::
      (retry_log 16 pl r ++ Event.detect :: Event.espi :: post_events c) =
      [Event.on_ac ac] ++ (retry_log 16 pl r ++ ([Event.detect, Event.espi] ++ post_events c)) :=
    rfl
  rw [e]
  refine ⟨?_, ?_, ?_⟩
  · rw [on_ac_calls_append, on_ac_calls_append, on_ac_calls_append, on_ac_calls_retry_log,
      on_ac_calls_post_events]
    rfl
  · rw [writes_append, writes_append, writes_append, writes_retry_log, writes_post_events,
      attempts_eq_expected]
    show 0 + (expected_writes r + (0 + 0)) = _
    omega
  · rw [posts_append, posts_append, posts_append, posts_retry_log, posts_post_events]
    rfl

theorem counts_quiet (c : List (Nat × Nat)) :
    on_ac_calls (Event.espi :: post_events c) = 0 ∧
    writes (Event.espi :: post_events c) = 0 ∧
    posts (Event.espi :: post_events c) = c.map (fun p => (p.1 % 256, p.2 % 256)) := by
  have e : Event.espi :: post_events c = [Event.espi] ++ post_events c := rfl
  rw [e]
  refine ⟨?_, ?_, ?_⟩
  · rw [on_ac_calls_append, on_ac_calls_post_events]; rfl
  · rw [writes_append, writes_post_events]; rfl
  · rw [posts_append, posts_post_events]; rfl

/-- After a tick with the gate open, in a build with the controller, the
recorded source is the one the tick read. -/
theorem tick_last_open (cfg : Config) (fuel : Nat) (i : Inputs) (m w : Machine)
    (hcfg : cfg.HAVE_DGPU ≠ 0) (h : tick cfg fuel i m = some w)
    (hg : i.CPU_C10_GATE_N = true) : w.last_power_limit_ac = !i.ACIN_N := by
  obtain ⟨_, _, _, hla⟩ := tick_some cfg fuel i m w h
  rw [hla, checked_last cfg _ hcfg]
  simp [Machine.arm, hg]

/-- What a source flip does when the converter completes: in a build with the
controller, when two consecutive ticks both see the gate open and the second
reads the opposite source, the second tick calls
`board_on_ac` exactly once, for the new source; every PECI write of the tick
carries the wattage of the new source times 8; the retry loop runs to success
or exhaustion; and `last_power_limit_ac` ends as the new source. -/
theorem board_event_source_flip (cfg : Config) (fuel n : Nat) (i1 i2 : Inputs)
    (m0 m1 : Machine) (hcfg : cfg.HAVE_DGPU ≠ 0)
    (h1 : tick cfg fuel i1 m0 = some m1)
    (hg1 : i1.CPU_C10_GATE_N = true) (hg2 : i2.CPU_C10_GATE_N = true)
    (hflip : i2.ACIN_N = !i1.ACIN_N)
    (hd : i2.adc_delay = some n) (hf : n + 2 ≤ fuel) (hq : i2.post_codes.length < fuel) :
    ∃ m2, tick cfg fuel i2 m1 = some m2 ∧
      on_ac_calls m2.log = 1 ∧
      Event.on_ac (!i2.ACIN_N) ∈ m2.log ∧
      (∀ e, e ∈ m2.log → e.isPeci = true →
        e = Event.peci 60 0
          ((if i2.ACIN_N then cfg.POWER_LIMIT_DC else cfg.POWER_LIMIT_AC) % 256 * 8)) ∧
      writes m2.log = expected_writes i2.peci_resp ∧
      m2.last_power_limit_ac = !i2.ACIN_N := by
  have hl1 := tick_last_open cfg fuel i1 m0 m1 hcfg h1 hg1
  have ht : transition cfg (m1.arm i2) := by
    refine ⟨hcfg, hg2, ?_⟩
    show m1.last_power_limit_ac ≠ !i2.ACIN_N
    rw [hl1, hflip]
    cases i1.ACIN_N <;> decide
  obtain ⟨m2, h2⟩ := tick_returns cfg fuel i2 m1 hq (Or.inr ⟨n, hd, hf⟩)
  have hlog := tick_log_transition cfg fuel i2 m1 m2 h2 ht
  obtain ⟨hc, hw, _⟩ := counts_transition (power_limit cfg (!i2.ACIN_N)) (!i2.ACIN_N)
    i2.peci_resp i2.post_codes
  refine ⟨m2, h2, by rw [hlog]; exact hc, by rw [hlog]; exact List.mem_cons_self _ _, ?_,
    by rw [hlog]; exact hw, tick_last_open cfg fuel i2 m1 m2 hcfg h2 hg2⟩
  intro e he hp
  rw [hlog] at he
  have hpay : Event.peci 60 0 (((power_limit cfg (!i2.ACIN_N)) % 256 * 8) % 2 ^ 32) =
      Event.peci 60 0
        ((if i2.ACIN_N then cfg.POWER_LIMIT_DC else cfg.POWER_LIMIT_AC) % 256 * 8) := by
    unfold power_limit
    rw [payload_eq]
    cases i2.ACIN_N <;> rfl
  rcases List.mem_cons.1 he with he | he
  · subst he; simp [Event.isPeci] at hp
  · rcases List.mem_append.1 he with he | he
    · rw [← hpay]
      exact retry_log_payload 16 _ _ e he hp
    · exfalso
      rcases List.mem_cons.1 he with he | he
      · subst he; simp [Event.isPeci] at hp
      · rcases List.mem_cons.1 he with he | he
        · subst he; simp [Event.isPeci] at hp
        · unfold post_events at he
          obtain ⟨c, _, hc⟩ := List.mem_map.1 he
          subst hc
          simp [Event.isPeci] at hp

/-- The source flip at a concrete pair of ticks, mains then battery, with a
conversion of three polls. -/
theorem board_event_source_flip_witness :
    ∃ m2, tick galp5 8 on_battery ((tick galp5 8 on_mains fresh).getD fresh) = some m2 ∧
      on_ac_calls m2.log = 1 ∧
      Event.on_ac (!on_battery.ACIN_N) ∈ m2.log ∧
      (∀ e, e ∈ m2.log → e.isPeci = true →
        e = Event.peci 60 0
          ((if on_battery.ACIN_N then galp5.POWER_LIMIT_DC else galp5.POWER_LIMIT_AC)
            % 256 * 8)) ∧
      writes m2.log = expected_writes on_battery.peci_resp ∧
      m2.last_power_limit_ac = !on_battery.ACIN_N :=
  board_event_source_flip galp5 8 3 on_mains on_battery fresh
    ((tick galp5 8 on_mains fresh).getD fresh) (by decide) rfl rfl rfl rfl rfl
    (by decide) (by decide)

theorem not_transition_closed (cfg : Config) (i : Inputs) (m : Machine)
    (hg : i.CPU_C10_GATE_N = false) : ¬ transition cfg (m.arm i) := by
  intro ht
  have h : i.CPU_C10_GATE_N = true := ht.2.1
  rw [hg] at h
  exact Bool.noConfusion h

/-- C3: a tick that sees the gate closed returns without calling `board_on_ac`
and without a PECI write, whatever `ACIN_N` and the prior state; in a build
with the controller it leaves `last_power_limit_ac` true. -/
theorem board_event_gate_closed (cfg : Config) (fuel : Nat) (i : Inputs) (m : Machine)
    (hg : i.CPU_C10_GATE_N = false) (hq : i.post_codes.length < fuel) :
    ∃ w, tick cfg fuel i m = some w ∧ on_ac_calls w.log = 0 ∧ writes w.log = 0 ∧
      (cfg.HAVE_DGPU ≠ 0 → w.last_power_limit_ac = true) := by
  have hnt := not_transition_closed cfg i m hg
  obtain ⟨w, h⟩ := tick_returns cfg fuel i m hq (Or.inl hnt)
  have hlog := tick_log_quiet cfg fuel i m w h hnt
  obtain ⟨hc, hw, _⟩ := counts_quiet i.post_codes
  refine ⟨w, h, by rw [hlog]; exact hc, by rw [hlog]; exact hw, ?_⟩
  intro hcfg
  obtain ⟨_, _, _, hla⟩ := tick_some cfg fuel i m w h
  rw [hla, checked_last cfg _ hcfg]
  simp [Machine.arm, hg]

/-- C3 at a concrete tick: on battery, gate closed, battery recorded before. -/
theorem board_event_gate_closed_witness :
    on_battery_closed.CPU_C10_GATE_N = false ∧
    ∃ w, tick galp5 8 on_battery_closed { fresh with last_power_limit_ac := false } = some w ∧
      on_ac_calls w.log = 0 ∧ writes w.log = 0 ∧
      (galp5.HAVE_DGPU ≠ 0 → w.last_power_limit_ac = true) :=
  ⟨rfl, board_event_gate_closed galp5 8 on_battery_closed
    { fresh with last_power_limit_ac := false } rfl (by decide)⟩

/-- C4 as stated fails: a tick on battery with the gate closed, followed by a
tick on battery with the gate open, reads the same source twice, and the second
tick calls `board_on_ac` and writes to the bus. -/
theorem same_source_reprograms_after_closed_gate :
    on_battery.ACIN_N = on_battery_closed.ACIN_N ∧
    ((tick galp5 8 on_battery_closed fresh).bind (tick galp5 8 on_battery)).map
      (fun w => (on_ac_calls w.log, writes w.log)) = some (1, 1) := by
  decide

/-- C4 amended: when the first of two consecutive ticks sees the gate open and
the second reads the same source, the second tick returns without calling
`board_on_ac` and without a PECI write. -/
theorem board_event_same_source (cfg : Config) (fuel : Nat) (i1 i2 : Inputs)
    (m0 m1 : Machine) (h1 : tick cfg fuel i1 m0 = some m1)
    (hg1 : i1.CPU_C10_GATE_N = true) (hsame : i2.ACIN_N = i1.ACIN_N)
    (hq : i2.post_codes.length < fuel) :
    ∃ m2, tick cfg fuel i2 m1 = some m2 ∧ on_ac_calls m2.log = 0 ∧ writes m2.log = 0 := by
  have hnt : ¬ transition cfg (m1.arm i2) := by
    rintro ⟨hcfg, _, hl⟩
    have hl1 := tick_last_open cfg fuel i1 m0 m1 hcfg h1 hg1
    apply hl
    show m1.last_power_limit_ac = !i2.ACIN_N
    rw [hl1, hsame]
  obtain ⟨m2, h2⟩ := tick_returns cfg fuel i2 m1 hq (Or.inl hnt)
  have hlog := tick_log_quiet cfg fuel i2 m1 m2 h2 hnt
  obtain ⟨hc, hw, _⟩ := counts_quiet i2.post_codes
  exact ⟨m2, h2, by rw [hlog]; exact hc, by rw [hlog]; exact hw⟩

/-- C4 amended, at a concrete pair of ticks: battery with the gate open,
twice. -/
theorem board_event_same_source_witness :
    ∃ m2, tick galp5 8 on_battery ((tick galp5 8 on_battery fresh).getD fresh) = some m2 ∧
      on_ac_calls m2.log = 0 ∧ writes m2.log = 0 :=
  board_event_same_source galp5 8 on_battery on_battery fresh
    ((tick galp5 8 on_battery fresh).getD fresh) rfl rfl rfl (by decide)

theorem classify_cases (high : Nat) (prior : Bool) :
    ((high = 0x00 ∨ high = 0x03) → classify high prior = true) ∧
    ((high = 0x01 ∨ high = 0x02) → classify high prior = false) ∧
    ((high ≠ 0x00 ∧ high ≠ 0x01 ∧ high ≠ 0x02 ∧ high ≠ 0x03) →
      classify high prior = prior) := by
  refine ⟨?_, ?_, ?_⟩
  · rintro (h | h) <;> subst h <;> rfl
  · rintro (h | h) <;> subst h <;> rfl
  · rintro ⟨h0, h1, h2, h3⟩
    simp [classify, h0, h1, h2, h3]

/-- C5: with a converter that completes, `board_detect` returns, and
`have_dgpu` is then true when the high byte of the sample is 0x00 or 0x03,
false when it is 0x01 or 0x02, and its prior value for any other high byte;
replacing the low byte of the sample changes nothing of this. -/
theorem board_detect_classifies (cfg : Config) (fuel n : Nat) (m : Machine)
    (hd : m.adc_delay = some n) (hf : n + 2 ≤ fuel) :
    ∃ w, board_detect cfg fuel m = some w ∧
      ((m.adc_high % 256 = 0x00 ∨ m.adc_high % 256 = 0x03) → w.have_dgpu = true) ∧
      ((m.adc_high % 256 = 0x01 ∨ m.adc_high % 256 = 0x02) → w.have_dgpu = false) ∧
      ((m.adc_high % 256 ≠ 0x00 ∧ m.adc_high % 256 ≠ 0x01 ∧ m.adc_high % 256 ≠ 0x02 ∧
        m.adc_high % 256 ≠ 0x03) → w.have_dgpu = m.have_dgpu) ∧
      (∀ low, ∃ w', board_detect cfg fuel { m with adc_low := low } = some w' ∧
        w'.have_dgpu = w.have_dgpu) := by
  obtain ⟨c1, c2, c3⟩ := classify_cases (m.adc_high % 256) m.have_dgpu
  refine ⟨detected cfg m, board_detect_returns cfg fuel n m hd hf, ?_, ?_, ?_, ?_⟩
  · rw [detected_have_dgpu]; exact c1
  · rw [detected_have_dgpu]; exact c2
  · rw [detected_have_dgpu]; exact c3
  · intro low
    exact ⟨detected cfg { m with adc_low := low },
      board_detect_returns cfg fuel n { m with adc_low := low } hd hf, rfl⟩

/-- C5 at a concrete machine: the sample 0x0307 sets `have_dgpu`. -/
theorem board_detect_classifies_witness :
    ∃ w, board_detect galp5 8 fresh = some w ∧
      ((fresh.adc_high % 256 = 0x00 ∨ fresh.adc_high % 256 = 0x03) → w.have_dgpu = true) ∧
      ((fresh.adc_high % 256 = 0x01 ∨ fresh.adc_high % 256 = 0x02) → w.have_dgpu = false) ∧
      ((fresh.adc_high % 256 ≠ 0x00 ∧ fresh.adc_high % 256 ≠ 0x01 ∧
        fresh.adc_high % 256 ≠ 0x02 ∧ fresh.adc_high % 256 ≠ 0x03) →
          w.have_dgpu = fresh.have_dgpu) ∧
      (∀ low, ∃ w', board_detect galp5 8 { fresh with adc_low := low } = some w' ∧
        w'.have_dgpu = w.have_dgpu) :=
  board_detect_classifies galp5 8 3 fresh rfl (by decide)

/-- C6: for every wattage `w` below 256, `set_power_limit w` makes exactly one
PECI write, with index 60, parameter 0 and payload `w * 8`, which is below
`2 ^ 32`; and in a build with the controller, with a converter that completes,
one `board_on_ac` call returns having made only PECI writes with index 60,
parameter 0 and payload eight times its wattage. -/
theorem set_power_limit_payload (cfg : Config) (fuel n w : Nat) (ac : Bool) (m : Machine)
    (hw : w < 256) (hcfg : cfg.HAVE_DGPU ≠ 0)
    (hd : m.adc_delay = some n) (hf : n + 2 ≤ fuel) :
    (set_power_limit w m).2.log = m.log ++ [Event.peci 60 0 (w * 8)] ∧
    w * 8 < 2 ^ 32 ∧
    ∃ x l, board_on_ac cfg fuel ac m = some x ∧ x.log = m.log ++ l ∧
      ∀ e, e ∈ l → e.isPeci = true →
        e = Event.peci 60 0
          ((if ac then cfg.POWER_LIMIT_AC else cfg.POWER_LIMIT_DC) % 256 * 8) := by
  have h32 : (2 : Nat) ^ 32 = 4294967296 := by norm_num
  refine ⟨?_, by omega, ?_⟩
  · have e : ((w % 256) * 8) % 2 ^ 32 = w * 8 := by
      rw [Nat.mod_eq_of_lt hw, Nat.mod_eq_of_lt (by omega)]
    simp only [set_power_limit, peci_wr_pkg_config, e]
  · refine ⟨on_ac_done cfg ac m, _, board_on_ac_returns cfg fuel n ac m hcfg hd hf,
      on_ac_done_log cfg ac m, ?_⟩
    intro e he hp
    have hpay : Event.peci 60 0 (((power_limit cfg ac) % 256 * 8) % 2 ^ 32) =
        Event.peci 60 0
          ((if ac then cfg.POWER_LIMIT_AC else cfg.POWER_LIMIT_DC) % 256 * 8) := by
      unfold power_limit
      rw [payload_eq]
    rcases List.mem_cons.1 he with he | he
    · subst he; simp [Event.isPeci] at hp
    · rcases List.mem_append.1 he with he | he
      · rw [← hpay]
        exact retry_log_payload 16 _ _ e he hp
      · rw [List.mem_singleton] at he
        subst he; simp [Event.isPeci] at hp

/-- C6 at a concrete wattage: 15 W is written as 120. -/
theorem set_power_limit_payload_witness :
    (set_power_limit 15 fresh).2.log = fresh.log ++ [Event.peci 60 0 120] ∧
    15 * 8 < 2 ^ 32 ∧
    ∃ x l, board_on_ac galp5 8 true fresh = some x ∧ x.log = fresh.log ++ l ∧
      ∀ e, e ∈ l → e.isPeci = true →
        e = Event.peci 60 0
          ((if true then galp5.POWER_LIMIT_AC else galp5.POWER_LIMIT_DC) % 256 * 8) :=
  set_power_limit_payload galp5 8 3 15 true fresh (by decide) (by decide) rfl (by decide)

/-- What the POST-code loop does when the tick reaches it: when the queue of
pending POST codes is shorter than the fuel, and the converter completes in
case the tick reprograms the power limit, one tick
returns having forwarded every pending code exactly once, oldest first, with
the queue empty and the new-data bit of `P80H81HS` reading zero. -/
theorem board_event_drains_post_codes (cfg : Config) (fuel : Nat) (i : Inputs) (m : Machine)
    (hq : i.post_codes.length < fuel)
    (hadc : transition cfg (m.arm i) → ∃ n, i.adc_delay = some n ∧ n + 2 ≤ fuel) :
    ∃ w, tick cfg fuel i m = some w ∧
      posts w.log = i.post_codes.map (fun p => (p.1 % 256, p.2 % 256)) ∧
      (posts w.log).length = i.post_codes.length ∧
      w.post_codes = [] ∧
      read_P80H81HS w &&& 1 = 0 := by
  have hr : (¬ transition cfg (m.arm i)) ∨ ∃ n, i.adc_delay = some n ∧ n + 2 ≤ fuel := by
    by_cases ht : transition cfg (m.arm i)
    · exact Or.inr (hadc ht)
    · exact Or.inl ht
  obtain ⟨w, h⟩ := tick_returns cfg fuel i m hq hr
  obtain ⟨_, hempty, _, _⟩ := tick_some cfg fuel i m w h
  have hposts : posts w.log = i.post_codes.map (fun p => (p.1 % 256, p.2 % 256)) := by
    by_cases ht : transition cfg (m.arm i)
    · rw [tick_log_transition cfg fuel i m w h ht]
      exact (counts_transition _ _ _ _).2.2
    · rw [tick_log_quiet cfg fuel i m w h ht]
      exact (counts_quiet _).2.2
  refine ⟨w, h, hposts, by rw [hposts, List.length_map], hempty, ?_⟩
  by_contra hne
  exact (read_P80H81HS_pending w).1 hne hempty

/-- The POST-code loop at a concrete tick: three pending codes, on battery
after mains, with a conversion of three polls. -/
theorem board_event_drains_post_codes_witness :
    ∃ w, tick galp5 8 { on_battery with post_codes := [(1, 2), (3, 4), (5, 6)] } fresh
        = some w ∧
      posts w.log = ({ on_battery with post_codes := [(1, 2), (3, 4), (5, 6)] } : Inputs
        ).post_codes.map (fun p => (p.1 % 256, p.2 % 256)) ∧
      (posts w.log).length = ({ on_battery with post_codes := [(1, 2), (3, 4), (5, 6)] }
        : Inputs).post_codes.length ∧
      w.post_codes = [] ∧
      read_P80H81HS w &&& 1 = 0 :=
  board_event_drains_post_codes galp5 8
    { on_battery with post_codes := [(1, 2), (3, 4), (5, 6)] } fresh (by decide)
    (fun _ => ⟨3, rfl, by decide⟩)

/-- C9 as stated fails: a tick that sees the gate closed while battery was the
source last applied changes `last_power_limit_ac` from false to true without
calling `board_on_ac`. -/
theorem gate_reset_changes_state_without_call :
    ({ fresh with last_power_limit_ac := false } : Machine).last_power_limit_ac = false ∧
    (tick galp5 8 on_battery_closed { fresh with last_power_limit_ac := false }).map
      (fun w => (w.last_power_limit_ac, on_ac_calls w.log, writes w.log))
        = some (true, 0, 0) := by
  decide

/-- C9 amended: when a tick returns with `last_power_limit_ac` changed, either
the gate was closed and the variable was reset from false to true with no
`board_on_ac` call and no PECI write, or the gate was open, `board_on_ac` was
called exactly once, for the source now recorded, and its retry loop ran to
the first response `0x40` or through all 16 attempts. -/
theorem board_event_state_change (cfg : Config) (fuel : Nat) (i : Inputs) (m w : Machine)
    (h : tick cfg fuel i m = some w)
    (hne : w.last_power_limit_ac ≠ m.last_power_limit_ac) :
    (i.CPU_C10_GATE_N = false ∧ m.last_power_limit_ac = false ∧
      w.last_power_limit_ac = true ∧ on_ac_calls w.log = 0 ∧ writes w.log = 0) ∨
    (i.CPU_C10_GATE_N = true ∧ on_ac_calls w.log = 1 ∧
      Event.on_ac w.last_power_limit_ac ∈ w.log ∧
      ((∃ k, k < 16 ∧ i.peci_resp k = 0x40 ∧ (∀ j, j < k → i.peci_resp j ≠ 0x40) ∧
          writes w.log = k + 1) ∨
        ((∀ j, j < 16 → i.peci_resp j ≠ 0x40) ∧ writes w.log = 16))) := by
  obtain ⟨_, _, _, hla⟩ := tick_some cfg fuel i m w h
  by_cases ht : transition cfg (m.arm i)
  · right
    obtain ⟨hcfg, hg, _⟩ := ht
    have hg' : i.CPU_C10_GATE_N = true := hg
    have hlog := tick_log_transition cfg fuel i m w h ⟨hcfg, hg, by assumption⟩
    obtain ⟨hc, hw, _⟩ := counts_transition (power_limit cfg (!i.ACIN_N)) (!i.ACIN_N)
      i.peci_resp i.post_codes
    have hlast := tick_last_open cfg fuel i m w hcfg h hg'
    refine ⟨hg', by rw [hlog]; exact hc, ?_, ?_⟩
    · rw [hlast, hlog]; exact List.mem_cons_self _ _
    · rw [hlog, hw]
      rcases expected_writes_cases i.peci_resp with ⟨k, hk, hr, hb, he⟩ | ⟨hb, he⟩
      · exact Or.inl ⟨k, hk, hr, hb, he⟩
      · exact Or.inr ⟨hb, he⟩
  · left
    have hlog := tick_log_quiet cfg fuel i m w h ht
    obtain ⟨hc, hw, _⟩ := counts_quiet i.post_codes
    have hchk : (checked cfg (m.arm i)).last_power_limit_ac ≠ m.last_power_limit_ac := by
      rw [← hla]; exact hne
    have hcfg : cfg.HAVE_DGPU ≠ 0 := by
      intro hz
      apply hchk
      unfold checked
      rw [if_neg (not_not.2 hz)]
      rfl
    have hg : i.CPU_C10_GATE_N = false := by
      cases hgv : i.CPU_C10_GATE_N with
      | false => rfl
      | true =>
        exfalso
        apply hchk
        have hl : ¬ ((m.arm i).last_power_limit_ac ≠ !(m.arm i).ACIN_N) :=
          fun c => ht ⟨hcfg, hgv, c⟩
        rw [checked_last cfg _ hcfg]
        have : (m.arm i).CPU_C10_GATE_N = true := hgv
        rw [this, if_pos rfl]
        exact (not_not.1 hl).symm
    have hwl : w.last_power_limit_ac = true := by
      rw [hla, checked_last cfg _ hcfg]
      have : (m.arm i).CPU_C10_GATE_N = false := hg
      rw [this]
      rfl
    refine ⟨hg, ?_, hwl, by rw [hlog]; exact hc, by rw [hlog]; exact hw⟩
    rw [hwl] at hne
    cases hm : m.last_power_limit_ac with
    | false => rfl
    | true => exact absurd hm.symm hne

/-- C9 amended, at a concrete tick: mains recorded, battery read with the gate
open. -/
theorem board_event_state_change_witness :
    ((tick galp5 8 on_battery fresh).getD fresh).last_power_limit_ac ≠
      fresh.last_power_limit_ac ∧
    ((on_battery.CPU_C10_GATE_N = false ∧ fresh.last_power_limit_ac = false ∧
      ((tick galp5 8 on_battery fresh).getD fresh).last_power_limit_ac = true ∧
      on_ac_calls ((tick galp5 8 on_battery fresh).getD fresh).log = 0 ∧
      writes ((tick galp5 8 on_battery fresh).getD fresh).log = 0) ∨
    (on_battery.CPU_C10_GATE_N = true ∧
      on_ac_calls ((tick galp5 8 on_battery fresh).getD fresh).log = 1 ∧
      Event.on_ac ((tick galp5 8 on_battery fresh).getD fresh).last_power_limit_ac ∈
        ((tick galp5 8 on_battery fresh).getD fresh).log ∧
      ((∃ k, k < 16 ∧ on_battery.peci_resp k = 0x40 ∧
          (∀ j, j < k → on_battery.peci_resp j ≠ 0x40) ∧
          writes ((tick galp5 8 on_battery fresh).getD fresh).log = k + 1) ∨
        ((∀ j, j < 16 → on_battery.peci_resp j ≠ 0x40) ∧
          writes ((tick galp5 8 on_battery fresh).getD fresh).log = 16)))) :=
  ⟨by decide, board_event_state_change galp5 8 on_battery fresh
    ((tick galp5 8 on_battery fresh).getD fresh) rfl (by decide)⟩

theorem tick_hangs (cfg : Config) (fuel : Nat) (i : Inputs) (m : Machine)
    (ht : transition cfg (m.arm i)) (hd : i.adc_delay = none) :
    tick cfg fuel i m = none := by
  obtain ⟨hcfg, hg, hl⟩ := ht
  have hb : board_on_ac cfg fuel (!(m.arm i).ACIN_N) (m.arm i) = none := by
    rw [board_on_ac_eq cfg fuel _ _ hcfg]
    exact board_detect_hangs cfg fuel _ (by rw [retry_eq]; exact hd)
  unfold tick board_event power_limit_check
  rw [if_pos hcfg, if_pos hg]
  simp only [if_pos hl, hb]
  rfl

/-- C10 fails on the code: in the galp5 build the tick that sees the source
change to battery with the gate open runs `board_detect` (through the call at
the end of `board_on_ac`), which overwrites `have_dgpu`; and when the converter
never raises data valid, that tick does not return for any amount of fuel. -/
theorem board_event_reaches_board_detect :
    fresh.have_dgpu = false ∧
    (tick galp5 8 on_battery fresh).map
      (fun w => (decide (Event.detect ∈ w.log), w.have_dgpu)) = some (true, true) ∧
    ∀ fuel, tick galp5 fuel { on_battery with adc_delay := none } fresh = none := by
  refine ⟨rfl, by decide, fun fuel => ?_⟩
  exact tick_hangs galp5 fuel _ fresh ⟨by decide, rfl, by decide⟩ rfl

/-- C1 fails on the code: with bus responses -1, -1, `0x40` the retry loop of
`board_on_ac` makes its three PECI writes, as the claim counts them, but the
call then enters `board_detect` (the last statement of `board_on_ac`), and
with a converter that never raises data valid the call does not return for any
amount of fuel. -/
theorem board_on_ac_stalls_after_retry :
    expected_writes stalled.peci_resp = 3 ∧
    writes (retry 16 (power_limit galp5 false) (stalled.emit (Event.on_ac false))).log = 3 ∧
    ∀ fuel, board_on_ac galp5 fuel false stalled = none := by
  refine ⟨by decide, by decide, fun fuel => ?_⟩
  rw [board_on_ac_eq galp5 fuel false stalled (by decide)]
  exact board_detect_hangs galp5 fuel _ (by rw [retry_eq]; rfl)

/-- C2 fails on the code: after a tick on mains, a tick that reads battery with
the gate open calls `board_on_ac`, which ends in `board_detect`; with a
converter that never raises data valid the tick does not return for any amount
of fuel, so the assignment to `last_power_limit_ac` that follows the call is
never reached. -/
theorem source_flip_stalls_before_update :
    on_mains.CPU_C10_GATE_N = true ∧ on_battery_stalled.CPU_C10_GATE_N = true ∧
    on_battery_stalled.ACIN_N = (!on_mains.ACIN_N) ∧
    ∃ m1, tick galp5 8 on_mains fresh = some m1 ∧ m1.last_power_limit_ac = true ∧
      ∀ fuel, tick galp5 fuel on_battery_stalled m1 = none := by
  have hq : ¬ transition galp5 (fresh.arm on_mains) := by decide
  obtain ⟨m1, h1⟩ := tick_returns galp5 8 on_mains fresh (by decide) (Or.inl hq)
  have hl : m1.last_power_limit_ac = true :=
    tick_last_open galp5 8 on_mains fresh m1 (by decide) h1 rfl
  refine ⟨rfl, rfl, rfl, m1, h1, hl, fun fuel => ?_⟩
  refine tick_hangs galp5 fuel on_battery_stalled m1 ⟨by decide, rfl, ?_⟩ rfl
  show m1.last_power_limit_ac ≠ !on_battery_stalled.ACIN_N
  rw [hl]
  decide

/-- C7 fails on the code: a tick that reads battery after mains with three POST
codes pending calls `board_on_ac` before it reaches the POST-code loop; with a
converter that never raises data valid the tick does not return for any amount
of fuel, so no pending code is read or acknowledged. -/
theorem post_codes_unread_when_detect_stalls :
    on_battery_stalled_codes.post_codes.length = 3 ∧
    read_P80H81HS (fresh.arm on_battery_stalled_codes) &&& 1 = 1 ∧
    ∀ fuel, tick galp5 fuel on_battery_stalled_codes fresh = none := by
  refine ⟨rfl, by decide, fun fuel => ?_⟩
  exact tick_hangs galp5 fuel _ fresh ⟨by decide, rfl, by decide⟩ rfl

end Galp5
